import Mathlib

/-!
Verification of the WaveBlocksND basis-shape index algebra and the
gradient stencil operator (`GradientHAWP.apply_gradient_component`),
together with the shape persistence helpers
(`save_wavepacket_basisshapes`, `load_wavepacket`) and the
`ParameterProvider` configuration container.

Multi-index shapes are embedded as lists of `List ℕ` nodes with a
position map given by the index in the canonical node list.  The shape
classes themselves (`HyperCubicShape` etc.) are not part of the sources
at hand, so their contract (`extend`, `get_neighbours`, descriptions and
hashes) is modelled from the specification; the stencil code in
`GradientHAWP.py` is translated directly.
-/

namespace WaveBlocks

/-- A multi-index node: a `D`-tuple of non-negative integers. -/
abbrev Node := List ℕ

/-- A basis shape: the dimension `D` and the node list in canonical
iteration order.  The node → linear index bijection is the position in
the list. -/
structure BasisShape where
  D : ℕ
  nodes : List Node
  deriving DecidableEq, Repr

namespace BasisShape

/-- Well-formedness of a shape: nodes are pairwise distinct and each
node is a `D`-tuple. -/
def WF (S : BasisShape) : Prop :=
  S.nodes.Nodup ∧ ∀ k ∈ S.nodes, k.length = S.D

instance (S : BasisShape) : Decidable S.WF := by
  unfold WF; infer_instance

/-- `get_basis_size`: the number of nodes. -/
def get_basis_size (S : BasisShape) : ℕ := S.nodes.length

/-- `K[k]`: the linear position of a node, i.e. its index in the
canonical node list. -/
def position (S : BasisShape) (k : Node) : ℕ := S.nodes.indexOf k

end BasisShape

/-- `k + e_d`: increment component `d` of a node. -/
def incr (k : Node) (d : ℕ) : Node :=
  k.mapIdx (fun i x => if i = d then x + 1 else x)

/-- `k - e_d`: decrement component `d` of a node. -/
def decr (k : Node) (d : ℕ) : Node :=
  k.mapIdx (fun i x => if i = d then x - 1 else x)

namespace BasisShape

/-- Modelled from the spec: `BasisShape.extend` of the shape classes
(which are not among the sources at hand).  "Returns a new shape whose
node set is the union of `shape`'s nodes and, for every node `k` in
`shape` and every dimension `d` in `[0, D)`, the node `k + e_d`,
provided that node is not already present.  No node is ever removed." -/
def extend (S : BasisShape) : BasisShape :=
  { D := S.D
    nodes := S.nodes ++
      ((S.nodes.flatMap (fun k => (List.range S.D).map (fun d => incr k d))).filter
        (fun n => decide (n ∉ S.nodes))).dedup }

/-- Modelled from the spec: `get_neighbours(k, selection="backward")` of
the shape classes.  "For each dimension `d` where `node[d] > 0`, if
`node - e_d` is present in `shape`, include `(d, node - e_d)`"; ordered
by increasing `d`. -/
def backwardNeighbours (S : BasisShape) (k : Node) : List (ℕ × Node) :=
  (List.range S.D).filterMap (fun d =>
    if 0 < k.getD d 0 ∧ decr k d ∈ S.nodes then some (d, decr k d) else none)

/-- Modelled from the spec: `get_neighbours(k, selection="forward")` of
the shape classes.  "For each dimension `d`, if `node + e_d` is present
in `shape`, include `(d, node + e_d)`"; ordered by increasing `d`. -/
def forwardNeighbours (S : BasisShape) (k : Node) : List (ℕ × Node) :=
  (List.range S.D).filterMap (fun d =>
    if incr k d ∈ S.nodes then some (d, incr k d) else none)

end BasisShape

/-! ### Coefficient arrays and scatter-add updates

`cnew` is a dense `|Ke| × D` complex array, embedded as a list of rows.
The numpy statement `cnew[i, :] += v` is embedded as `addToRow`: entry
`j` of row `i` gains `v j`, every other entry is unchanged. -/

/-- Add `g j` to the `j`-th entry of a vector (entries counted from the
accumulator index `j₀`). -/
noncomputable def addVecAux (g : ℕ → ℂ) : ℕ → List ℂ → List ℂ
  | _, [] => []
  | j, x :: xs => (x + g j) :: addVecAux g (j + 1) xs

/-- Add `f r j` to entry `(r, j)` of a matrix (rows counted from the
accumulator index `r₀`). -/
noncomputable def addAllAux (f : ℕ → ℕ → ℂ) : ℕ → List (List ℂ) → List (List ℂ)
  | _, [] => []
  | r, row :: rest => addVecAux (f r) 0 row :: addAllAux f (r + 1) rest

/-- Add `f r j` to every entry `(r, j)` of a matrix. -/
noncomputable def addAll (m : List (List ℂ)) (f : ℕ → ℕ → ℂ) : List (List ℂ) :=
  addAllAux f 0 m

/-- The numpy row update `cnew[i, :] += v`: only row `i` changes, its
entry `j` gains `v j`. -/
noncomputable def addToRow (m : List (List ℂ)) (i : ℕ) (v : ℕ → ℂ) : List (List ℂ) :=
  addAll m (fun r j => if r = i then v j else 0)

/-- A single scatter update: a target row index and the vector of values
added to that row. -/
abbrev Upd := ℕ × (ℕ → ℂ)

/-- Perform a sequence of row updates in order. -/
noncomputable def applyUpdates (m : List (List ℂ)) (us : List Upd) : List (List ℂ) :=
  us.foldl (fun m u => addToRow m u.1 u.2) m

/-- Total value contributed to entry `(r, j)` by a list of updates. -/
noncomputable def sumUpdates (us : List Upd) (r j : ℕ) : ℂ :=
  (us.map (fun u => if u.1 = r then u.2 j else 0)).sum

/-- Entry `(r, j)` of a matrix. -/
noncomputable def entry (m : List (List ℂ)) (r j : ℕ) : ℂ :=
  (m.getD r []).getD j 0

/-- The zero-filled `rows × cols` array `zeros((size, D))`. -/
noncomputable def zeros (rows cols : ℕ) : List (List ℂ) :=
  List.replicate rows (List.replicate cols 0)

/-- Entry `(j, d)` of a matrix stored as a list of rows (`M[j, d]`). -/
noncomputable def matEntry (M : List (List ℂ)) (j d : ℕ) : ℂ :=
  (M.getD j []).getD d 0

/-- Entry-wise complex conjugate of a matrix (`conjugate(P)`). -/
noncomputable def conjMat (M : List (List ℂ)) : List (List ℂ) :=
  M.map (fun row => row.map (fun z => (starRingEnd ℂ) z))

/-! ### The Hagedorn wavepacket data read by the gradient operator

`apply_gradient_component` reads, for the selected component, the
dimension `D`, the semiclassical scale `eps`, the Hagedorn parameters
`(q, p, Q, P, S)`, the coefficient vector and the basis shape.  The
wavepacket container class is not among the sources at hand; following
the spec it is a plain record of this data, owned by the caller. -/

structure Wavepacket where
  D : ℕ
  eps : ℝ
  q : List ℂ
  p : List ℂ
  Q : List (List ℂ)
  P : List (List ℂ)
  Sphase : ℂ
  shape : BasisShape
  coeffs : List ℂ

namespace Wavepacket

/-- `wavepacket.get_dimension()`. -/
def get_dimension (wp : Wavepacket) : ℕ := wp.D

/-- `wavepacket.get_eps()`. -/
def get_eps (wp : Wavepacket) : ℝ := wp.eps

/-- `wavepacket.get_parameters(component=component)`, the tuple
`(q, p, Q, P, S)`. -/
def get_parameters (wp : Wavepacket) :
    List ℂ × List ℂ × List (List ℂ) × List (List ℂ) × ℂ :=
  (wp.q, wp.p, wp.Q, wp.P, wp.Sphase)

/-- `wavepacket.get_coefficients(component=component)`. -/
def get_coefficients (wp : Wavepacket) : List ℂ := wp.coeffs

/-- `wavepacket.get_basis_shapes(component=component)`. -/
def get_basis_shapes (wp : Wavepacket) : BasisShape := wp.shape

end Wavepacket

/-! ### The gradient stencil of `GradientHAWP.apply_gradient_component`

The loop body for a node `k` performs, in order,

    cnew[Ke[k], :] += squeeze(coeffs[K[k]] * p)
    for d, nb in Ke.get_neighbours(k, selection="backward"):
        cnew[Ke[nb], :] += sqrt(eps**2/2) * sqrt(k[d]) * coeffs[K[k]] * Pbar[:, d]
    for d, nb in Ke.get_neighbours(k, selection="forward"):
        cnew[Ke[nb], :] += sqrt(eps**2/2) * sqrt(k[d] + 1) * coeffs[K[k]] * P[:, d]

Each `+=` is one `Upd`; the loop body is the update list `nodeUpdates`. -/

/-- The central update of node `k`: `cnew[Ke[k], :] += coeffs[K[k]] * p`. -/
noncomputable def centralUpdate (Ke K : BasisShape) (coeffs p : List ℂ)
    (k : Node) : Upd :=
  (Ke.position k, fun j => coeffs.getD (K.position k) 0 * p.getD j 0)

/-- The backward updates of node `k`: for each `(d, nb)` in
`Ke.get_neighbours(k, selection="backward")`,
`cnew[Ke[nb], :] += sqrt(eps²/2) · sqrt(k[d]) · coeffs[K[k]] · Pbar[:, d]`. -/
noncomputable def backwardUpdates (Ke K : BasisShape) (coeffs : List ℂ)
    (Pbar : List (List ℂ)) (eps : ℝ) (k : Node) : List Upd :=
  (Ke.backwardNeighbours k).map (fun dn =>
    (Ke.position dn.2, fun j =>
      (Real.sqrt (eps ^ 2 / 2) : ℂ) * (Real.sqrt (k.getD dn.1 0) : ℂ) *
        coeffs.getD (K.position k) 0 * matEntry Pbar j dn.1))

/-- The forward updates of node `k`: for each `(d, nb)` in
`Ke.get_neighbours(k, selection="forward")`,
`cnew[Ke[nb], :] += sqrt(eps²/2) · sqrt(k[d] + 1) · coeffs[K[k]] · P[:, d]`. -/
noncomputable def forwardUpdates (Ke K : BasisShape) (coeffs : List ℂ)
    (P : List (List ℂ)) (eps : ℝ) (k : Node) : List Upd :=
  (Ke.forwardNeighbours k).map (fun dn =>
    (Ke.position dn.2, fun j =>
      (Real.sqrt (eps ^ 2 / 2) : ℂ) * (Real.sqrt ((k.getD dn.1 0 : ℝ) + 1) : ℂ) *
        coeffs.getD (K.position k) 0 * matEntry P j dn.1))

/-- The full loop body for node `k`: central, then backward, then
forward updates, in source order. -/
noncomputable def nodeUpdates (Ke K : BasisShape) (coeffs p : List ℂ)
    (P Pbar : List (List ℂ)) (eps : ℝ) (k : Node) : List Upd :=
  centralUpdate Ke K coeffs p k ::
    (backwardUpdates Ke K coeffs Pbar eps k ++ forwardUpdates Ke K coeffs P eps k)

/-- `GradientHAWP.apply_gradient_component`: extends the basis shape,
allocates a zero-filled `|Ke| × D` array and scatter-accumulates the
central, backward and forward contributions of every node of the
original shape `K`, iterating the nodes in canonical order. -/
noncomputable def apply_gradient_component (wp : Wavepacket) :
    BasisShape × List (List ℂ) :=
  let D := wp.get_dimension
  let eps := wp.get_eps
  let (_q, p, _Q, P, _S) := wp.get_parameters
  let Pbar := conjMat P
  let coeffs := wp.get_coefficients
  let K := wp.get_basis_shapes
  let Ke := K.extend
  let size := Ke.get_basis_size
  let cnew := zeros size D
  (Ke, K.nodes.foldl
    (fun c k => applyUpdates c (nodeUpdates Ke K coeffs p P Pbar eps k)) cnew)

/-! ### Variants of the stencil loop and the spec-side contribution sums -/

/-- The stencil loop with the backward-neighbour accumulation removed;
used to isolate the total contribution added by the backward loop. -/
noncomputable def gradientNoBackward (wp : Wavepacket) : List (List ℂ) :=
  wp.shape.nodes.foldl
    (fun c k => applyUpdates c
      (centralUpdate wp.shape.extend wp.shape wp.coeffs wp.p k ::
        forwardUpdates wp.shape.extend wp.shape wp.coeffs wp.P wp.eps k))
    (zeros wp.shape.extend.get_basis_size wp.D)

/-- The stencil loop with the forward-neighbour accumulation removed;
used to isolate the total contribution added by the forward loop. -/
noncomputable def gradientNoForward (wp : Wavepacket) : List (List ℂ) :=
  wp.shape.nodes.foldl
    (fun c k => applyUpdates c
      (centralUpdate wp.shape.extend wp.shape wp.coeffs wp.p k ::
        backwardUpdates wp.shape.extend wp.shape wp.coeffs (conjMat wp.P) wp.eps k))
    (zeros wp.shape.extend.get_basis_size wp.D)

/-- Formalized from the spec's words: the total backward contribution to
entry `(r, j)` when the backward neighbours of every node `k` are looked
up against the shape `loc` — for each `(d, nb)` in the backward
neighbour list, `sqrt(eps²/2) · sqrt(k[d]) · c_k · Pbar[:, d]` is
credited to the row of `nb` under the extended shape's position map. -/
noncomputable def backwardContribVia (loc : BasisShape) (wp : Wavepacket)
    (r j : ℕ) : ℂ :=
  (wp.shape.nodes.map (fun k =>
    ((loc.backwardNeighbours k).map (fun dn =>
      if wp.shape.extend.position dn.2 = r then
        (Real.sqrt (wp.eps ^ 2 / 2) : ℂ) * (Real.sqrt (k.getD dn.1 0) : ℂ) *
          wp.coeffs.getD (wp.shape.position k) 0 * matEntry (conjMat wp.P) j dn.1
      else 0)).sum)).sum

/-- Formalized from the spec's words: the total forward contribution to
entry `(r, j)` when the forward neighbours of every node `k` are looked
up against the shape `loc` — for each `(d, nb)` in the forward neighbour
list, `sqrt(eps²/2) · sqrt(k[d] + 1) · c_k · P[:, d]` is credited to the
row of `nb` under the extended shape's position map. -/
noncomputable def forwardContribVia (loc : BasisShape) (wp : Wavepacket)
    (r j : ℕ) : ℂ :=
  (wp.shape.nodes.map (fun k =>
    ((loc.forwardNeighbours k).map (fun dn =>
      if wp.shape.extend.position dn.2 = r then
        (Real.sqrt (wp.eps ^ 2 / 2) : ℂ) * (Real.sqrt ((k.getD dn.1 0 : ℝ) + 1) : ℂ) *
          wp.coeffs.getD (wp.shape.position k) 0 * matEntry wp.P j dn.1
      else 0)).sum)).sum

/-! ### Concrete inputs

`shapeC3`/`wpC3` is the 1-D concrete scenario of the spec (nodes
`{0,1,2}`, `p = [1]`, `P = [[1]]`, `eps = 1`, `c = [1,0,0]`).
`shapeCex`/`wpCex` is a 1-D shape with nodes `{0, 2}` and the
coefficient of node `2` set to one; node `1` lies in the extension but
not in the original shape, which separates backward-neighbour lookups
against the two shapes. -/

def shapeC3 : BasisShape := ⟨1, [[0], [1], [2]]⟩

noncomputable def wpC3 : Wavepacket :=
  { D := 1, eps := 1, q := [0], p := [1], Q := [[1]], P := [[1]],
    Sphase := 0, shape := shapeC3, coeffs := [1, 0, 0] }

def shapeCex : BasisShape := ⟨1, [[0], [2]]⟩

noncomputable def wpCex : Wavepacket :=
  { D := 1, eps := 1, q := [0], p := [0], Q := [[1]], P := [[1]],
    Sphase := 0, shape := shapeCex, coeffs := [0, 1] }

/-- The extension of `shapeCex`, written out. -/
def shapeCexE : BasisShape := ⟨1, [[0], [2], [1], [3]]⟩

def shapeC3E : BasisShape := ⟨1, [[0], [1], [2], [3]]⟩

/-! ### State-threaded version of the gradient call

To express the frame property of `apply_gradient_component` — the call
only *reads* the wavepacket through its accessors and never writes it —
the call sequence of the source is rendered with the wavepacket threaded
as explicit state: each accessor returns its value together with the
wavepacket state it leaves behind, and the final state of the call is
whatever the last accessor left. -/

/-- `wavepacket.get_dimension()`, state-threaded. -/
def get_dimension_st (wp : Wavepacket) : ℕ × Wavepacket := (wp.D, wp)

/-- `wavepacket.get_eps()`, state-threaded. -/
def get_eps_st (wp : Wavepacket) : ℝ × Wavepacket := (wp.eps, wp)

/-- `wavepacket.get_parameters(...)`, state-threaded. -/
def get_parameters_st (wp : Wavepacket) :
    (List ℂ × List ℂ × List (List ℂ) × List (List ℂ) × ℂ) × Wavepacket :=
  ((wp.q, wp.p, wp.Q, wp.P, wp.Sphase), wp)

/-- `wavepacket.get_coefficients(...)`, state-threaded. -/
def get_coefficients_st (wp : Wavepacket) : List ℂ × Wavepacket :=
  (wp.coeffs, wp)

/-- `wavepacket.get_basis_shapes(...)`, state-threaded. -/
def get_basis_shapes_st (wp : Wavepacket) : BasisShape × Wavepacket :=
  (wp.shape, wp)

/-- `GradientHAWP.apply_gradient_component` with the wavepacket threaded
as explicit state through every accessor call of the source. -/
noncomputable def apply_gradient_component_st (wp₀ : Wavepacket) :
    (BasisShape × List (List ℂ)) × Wavepacket :=
  let (D, wp₁) := get_dimension_st wp₀
  let (eps, wp₂) := get_eps_st wp₁
  let ((_q, p, _Q, P, _S), wp₃) := get_parameters_st wp₂
  let Pbar := conjMat P
  let (coeffs, wp₄) := get_coefficients_st wp₃
  let (K, wp₅) := get_basis_shapes_st wp₄
  let Ke := K.extend
  let cnew := zeros Ke.get_basis_size D
  ((Ke, K.nodes.foldl
      (fun c k => applyUpdates c (nodeUpdates Ke K coeffs p P Pbar eps k))
      cnew),
    wp₅)

/-! ### Shape descriptions, reconstruction and structural hashing

The shape family classes and `BlockFactory.create_basis_shape` are not
among the sources at hand; they are modelled from the spec: a shape
carries a description (family tag plus numeric parameters) sufficient to
reconstruct an equal shape, and a structural hash that is a pure
function of that description. -/

/-- Modelled from the spec: a shape description — "family tag + numeric
parameters, e.g. per-axis cardinality limits for a hyper-rectangular
family", as stored and reloaded by the persistence layer. -/
structure Description where
  tag : String
  params : List ℕ
  deriving DecidableEq, Repr

/-- Modelled from the spec: the concrete shape families ("e.g.
hyper-rectangular product shapes, simplex-limited shapes"), a closed set
of variants behind the shape contract. -/
inductive ShapeInstance
  | hypercubic (limits : List ℕ)
  | hyperbolic (D : ℕ) (K : ℕ)
  deriving DecidableEq, Repr

/-- All nodes of the product lattice with the given per-axis limits, in
canonical (lexicographic) order. -/
def cubeNodes : List ℕ → List Node
  | [] => [[]]
  | l :: ls => (List.range l).flatMap (fun i => (cubeNodes ls).map (fun t => i :: t))

/-- The node set of a shape family instance. -/
def ShapeInstance.toBasisShape : ShapeInstance → BasisShape
  | .hypercubic limits => ⟨limits.length, cubeNodes limits⟩
  | .hyperbolic D K =>
      ⟨D, (cubeNodes (List.replicate D K)).filter
        (fun k => decide ((k.map (fun x => x + 1)).prod ≤ K))⟩

/-- `basisshape.get_description()`: the family tag and its parameters. -/
def ShapeInstance.get_description : ShapeInstance → Description
  | .hypercubic limits => ⟨"HyperCubicShape", limits⟩
  | .hyperbolic D K => ⟨"HyperbolicCutShape", [D, K]⟩

/-- An injective encoding of a parameter list into one natural. -/
def encodeParams : List ℕ → ℕ
  | [] => 0
  | x :: xs => Nat.pair x (encodeParams xs) + 1

/-- Numeric code of a family tag. -/
def tagCode (t : String) : ℕ := if t = "HyperCubicShape" then 0 else 1

/-- Modelled from the spec: the structural hash, "a deterministic
structural hash function over the canonical description", a pure
function of the description. -/
def Description.structural_hash (d : Description) : ℕ :=
  Nat.pair (tagCode d.tag) (encodeParams d.params)

/-- `hash(basisshape)`: the structural hash of the shape's description. -/
def ShapeInstance.structural_hash (s : ShapeInstance) : ℕ :=
  s.get_description.structural_hash

/-- Modelled from the spec: `BlockFactory.create_basis_shape`, which
dispatches on the family tag of a description and rebuilds the shape
from the stored parameters; unknown tags or malformed parameters fail. -/
def create_basis_shape (d : Description) : Option ShapeInstance :=
  if d.tag = "HyperCubicShape" then some (.hypercubic d.params)
  else if d.tag = "HyperbolicCutShape" then
    match d.params with
    | [D, K] => some (.hyperbolic D K)
    | _ => none
  else none

/-! ### The stored `basisshapes` group and `save_wavepacket_basisshapes` -/

/-- The `basisshapes` group of the output file: dataset names mapped to
the stored hash value and the description attributes, in creation
order. -/
structure BasisShapeStore where
  entries : List (String × (ℕ × Description))
  deriving DecidableEq, Repr

/-- The dataset names present in the group (`self._srf[pathd].keys()`). -/
def BasisShapeStore.keys (st : BasisShapeStore) : List String :=
  st.entries.map Prod.fst

/-- `save_wavepacket_basisshapes` (and the identical
`save_inhomogwavepacket_basisshapes`): compute `ha = hash(basisshape)`
and `name = "basis_shape_" + str(ha)`; if `name` is not among the stored
keys, create a new dataset holding `ha` and the shape's description,
otherwise leave the group unchanged. -/
def save_wavepacket_basisshapes (st : BasisShapeStore) (bs : ShapeInstance) :
    BasisShapeStore :=
  let ha := bs.structural_hash
  let name := "basis_shape_" ++ toString ha
  if name ∈ st.keys then st
  else ⟨st.entries ++ [(name, (ha, bs.get_description))]⟩

/-! ### A heap model for `ParameterProvider`

`ParameterProvider` stores references to Python objects and protects its
state by `deepcopy` on write and on export.  To express the mutation
claims, object graphs live on an explicit heap: an address maps to the
value of a whole object graph, mutating an object is overwriting its
heap cell, and `copy.deepcopy` allocates a fresh cell with the same
value, sharing nothing with the original. -/

/-- A Python object value: an integer leaf or a (nested) list value. -/
inductive PyVal
  | int (n : ℤ)
  | vlist (l : List PyVal)

/-- The heap: a cell per object graph, addressed by position. -/
abbrev Heap := List PyVal

/-- Read the object at an address. -/
def heapGet (h : Heap) (a : ℕ) : Option PyVal := h.get? a

/-- Mutate the object at an address in place. -/
def heapSet (h : Heap) (a : ℕ) (v : PyVal) : Heap := h.set a v

/-- Allocate a new object at the end of the heap. -/
def alloc (h : Heap) (v : PyVal) : Heap × ℕ := (h ++ [v], h.length)

/-- `copy.deepcopy(x)`: a fresh object graph, equal in value to `x` and
sharing no cell with any existing object; fails on a dangling
reference. -/
def deepcopy (h : Heap) (a : ℕ) : Option (Heap × ℕ) :=
  (heapGet h a).map (alloc h)

/-- `ParameterProvider`: the `_params` dict, mapping parameter names to
references to stored value objects. -/
structure ParameterProvider where
  params : List (String × ℕ)

/-- Store `key ↦ a` in an association list, replacing an existing
binding of `key` or appending a new one. -/
def assocSet : List (String × ℕ) → String → ℕ → List (String × ℕ)
  | [], k, a => [(k, a)]
  | (k', a') :: rest, k, a =>
      if k' = k then (k, a) :: rest else (k', a') :: assocSet rest k a

/-- `ParameterProvider.__setitem__`:
`self._params[key] = deepcopy(value)`. -/
def ParameterProvider.setItem (pp : ParameterProvider) (h : Heap)
    (key : String) (a : ℕ) : Option (Heap × ParameterProvider) :=
  (deepcopy h a).map (fun ha => (ha.1, ⟨assocSet pp.params key ha.2⟩))

/-- The observable outcome of `ParameterProvider.__getitem__`: a value
reference (with the updated heap and provider), a `KeyError`, or a
dangling reference (a model artifact that cannot arise on a valid
heap). -/
inductive GetItemResult
  | ok (h : Heap) (pp : ParameterProvider) (a : ℕ)
  | keyError
  | invalidRef

/-- `ParameterProvider.__getitem__`, with the global defaults table
passed explicitly (the spec's layered-configuration reading of
`GlobalDefaults`, whose module is not among the sources at hand): return
the local value if present; otherwise, if a global default exists, store
`deepcopy(default)` through `__setitem__` (which deep-copies again) and
return the freshly stored value; otherwise raise `KeyError`. -/
def ParameterProvider.getItem (pp : ParameterProvider) (h : Heap)
    (defaults : List (String × ℕ)) (key : String) : GetItemResult :=
  match pp.params.lookup key with
  | some a => .ok h pp a
  | none =>
    match defaults.lookup key with
    | some a =>
      match deepcopy h a with
      | some (h₁, a₁) =>
        match ParameterProvider.setItem pp h₁ key a₁ with
        | some (h₂, pp₂) =>
          match pp₂.params.lookup key with
          | some a₂ => .ok h₂ pp₂ a₂
          | none => .invalidRef
        | none => .invalidRef
      | none => .invalidRef
    | none => .keyError

/-- Deep-copy every value object of a parameter dict, in order. -/
def deepcopyParams (h : Heap) :
    List (String × ℕ) → Option (Heap × List (String × ℕ))
  | [] => some (h, [])
  | (k, a) :: rest =>
    match deepcopy h a with
    | some (h₁, a₁) =>
        match deepcopyParams h₁ rest with
        | some (h₂, l) => some (h₂, (k, a₁) :: l)
        | none => none
    | none => none

/-- `ParameterProvider.get_parameters`: `return deepcopy(self._params)`
— a copy of the dict with every stored value object deep-copied. -/
def ParameterProvider.get_parameters (pp : ParameterProvider) (h : Heap) :
    Option (Heap × List (String × ℕ)) :=
  deepcopyParams h pp.params

/-! ### Characterization of scatter-add sequences -/

lemma addVecAux_length (g : ℕ → ℂ) (xs : List ℂ) :
    ∀ j, (addVecAux g j xs).length = xs.length := by
  induction xs with
  | nil => intro j; rfl
  | cons x xs ih => intro j; simp [addVecAux, ih]

lemma addVecAux_addVecAux (g h : ℕ → ℂ) (xs : List ℂ) :
    ∀ j, addVecAux g j (addVecAux h j xs) = addVecAux (fun i => h i + g i) j xs := by
  induction xs with
  | nil => intro j; rfl
  | cons x xs ih => intro j; simp [addVecAux, ih, add_assoc]

lemma addVecAux_zero (g : ℕ → ℂ) (hg : ∀ i, g i = 0) (xs : List ℂ) :
    ∀ j, addVecAux g j xs = xs := by
  induction xs with
  | nil => intro j; rfl
  | cons x xs ih => intro j; simp [addVecAux, hg, ih]

lemma addVecAux_getD (g : ℕ → ℂ) (xs : List ℂ) :
    ∀ j i, i < xs.length → (addVecAux g j xs).getD i 0 = xs.getD i 0 + g (j + i) := by
  induction xs with
  | nil => intro j i hi; simp at hi
  | cons x xs ih =>
      intro j i hi
      cases i with
      | zero => simp [addVecAux]
      | succ i =>
          simp only [addVecAux, List.getD_cons_succ]
          rw [ih (j + 1) i (by simpa using hi)]
          ring_nf

lemma addAllAux_length (f : ℕ → ℕ → ℂ) (m : List (List ℂ)) :
    ∀ r₀, (addAllAux f r₀ m).length = m.length := by
  induction m with
  | nil => intro r₀; rfl
  | cons row rest ih => intro r₀; simp [addAllAux, ih]

lemma addAllAux_addAllAux (f g : ℕ → ℕ → ℂ) (m : List (List ℂ)) :
    ∀ r₀, addAllAux g r₀ (addAllAux f r₀ m)
      = addAllAux (fun r j => f r j + g r j) r₀ m := by
  induction m with
  | nil => intro r₀; rfl
  | cons row rest ih =>
      intro r₀; simp [addAllAux, ih, addVecAux_addVecAux]

lemma addAllAux_zero (f : ℕ → ℕ → ℂ) (hf : ∀ r j, f r j = 0) (m : List (List ℂ)) :
    ∀ r₀, addAllAux f r₀ m = m := by
  induction m with
  | nil => intro r₀; rfl
  | cons row rest ih =>
      intro r₀; simp [addAllAux, ih, addVecAux_zero _ (hf r₀) row]

lemma addAllAux_getD (f : ℕ → ℕ → ℂ) (m : List (List ℂ)) :
    ∀ r₀ r, r < m.length →
      (addAllAux f r₀ m).getD r [] = addVecAux (f (r₀ + r)) 0 (m.getD r []) := by
  induction m with
  | nil => intro r₀ r hr; simp at hr
  | cons row rest ih =>
      intro r₀ r hr
      cases r with
      | zero => simp [addAllAux]
      | succ r =>
          simp only [addAllAux, List.getD_cons_succ]
          rw [ih (r₀ + 1) r (by simp only [List.length_cons] at hr; omega)]
          ring_nf

lemma addAll_length (m : List (List ℂ)) (f : ℕ → ℕ → ℂ) :
    (addAll m f).length = m.length := addAllAux_length f m 0

lemma addAll_addAll (m : List (List ℂ)) (f g : ℕ → ℕ → ℂ) :
    addAll (addAll m f) g = addAll m (fun r j => f r j + g r j) :=
  addAllAux_addAllAux f g m 0

lemma entry_addAll (m : List (List ℂ)) (f : ℕ → ℕ → ℂ) (r j : ℕ)
    (hr : r < m.length) (hj : j < (m.getD r []).length) :
    entry (addAll m f) r j = entry m r j + f r j := by
  unfold entry addAll
  rw [addAllAux_getD f m 0 r hr, addVecAux_getD _ _ 0 j hj]
  simp

lemma addAll_getD_length (m : List (List ℂ)) (f : ℕ → ℕ → ℂ) (r : ℕ) :
    ((addAll m f).getD r []).length = (m.getD r []).length := by
  by_cases hr : r < m.length
  · unfold addAll
    rw [addAllAux_getD f m 0 r hr, addVecAux_length]
  · have h1 : (addAll m f).length ≤ r := by rw [addAll_length]; omega
    have h2 : m.length ≤ r := by omega
    rw [List.getD_eq_default _ _ h1, List.getD_eq_default _ _ h2]

lemma applyUpdates_nil (m : List (List ℂ)) : applyUpdates m [] = m := rfl

lemma applyUpdates_append (m : List (List ℂ)) (us vs : List Upd) :
    applyUpdates m (us ++ vs) = applyUpdates (applyUpdates m us) vs := by
  simp only [applyUpdates, List.foldl_append]

lemma sumUpdates_nil (r j : ℕ) : sumUpdates [] r j = 0 := rfl

lemma sumUpdates_cons (u : Upd) (us : List Upd) (r j : ℕ) :
    sumUpdates (u :: us) r j
      = (if u.1 = r then u.2 j else 0) + sumUpdates us r j := by
  simp only [sumUpdates, List.map_cons, List.sum_cons]

lemma sumUpdates_append (us vs : List Upd) (r j : ℕ) :
    sumUpdates (us ++ vs) r j = sumUpdates us r j + sumUpdates vs r j := by
  simp [sumUpdates]

lemma applyUpdates_eq_addAll (us : List Upd) :
    ∀ m, applyUpdates m us = addAll m (fun r j => sumUpdates us r j) := by
  induction us with
  | nil =>
      intro m
      rw [applyUpdates_nil]
      exact (addAllAux_zero _ (fun r j => rfl) m 0).symm
  | cons u us ih =>
      intro m
      show applyUpdates (addToRow m u.1 u.2) us = _
      rw [ih, addToRow, addAll_addAll]
      congr 1
      funext r j
      rw [sumUpdates_cons]
      by_cases h : u.1 = r
      · simp [h]
      · rw [if_neg h, if_neg (fun hc => h hc.symm)]

lemma foldl_applyUpdates (g : Node → List Upd) (nodes : List Node) :
    ∀ m, nodes.foldl (fun c k => applyUpdates c (g k)) m
      = applyUpdates m (nodes.flatMap g) := by
  induction nodes with
  | nil => intro m; rfl
  | cons k rest ih =>
      intro m
      show rest.foldl _ (applyUpdates m (g k)) = _
      rw [ih, List.flatMap_cons, applyUpdates_append]

lemma sumUpdates_flatMap (g : Node → List Upd) (nodes : List Node) (r j : ℕ) :
    sumUpdates (nodes.flatMap g) r j
      = (nodes.map (fun k => sumUpdates (g k) r j)).sum := by
  induction nodes with
  | nil => rfl
  | cons k rest ih =>
      rw [List.flatMap_cons, sumUpdates_append, List.map_cons, List.sum_cons, ih]

lemma zeros_getD (rows cols r : ℕ) (hr : r < rows) :
    (zeros rows cols).getD r [] = List.replicate cols 0 := by
  unfold zeros
  rw [List.getD_eq_getElem _ _ (by simpa using hr)]
  simp

lemma entry_zeros (rows cols r j : ℕ) (hr : r < rows) (hj : j < cols) :
    entry (zeros rows cols) r j = 0 := by
  unfold entry
  rw [zeros_getD rows cols r hr,
    List.getD_eq_getElem _ _ (by simpa using hj)]
  simp

lemma zeros_getD_length (rows cols r : ℕ) (hr : r < rows) :
    ((zeros rows cols).getD r []).length = cols := by
  rw [zeros_getD rows cols r hr]
  simp

/-- Entry characterization of the whole scatter loop: starting from a
zero array, entry `(r, j)` of the final array is the sum over the nodes
of the total contribution of that node's updates to `(r, j)`. -/
lemma entry_foldl_zeros (g : Node → List Upd) (nodes : List Node)
    (rows cols r j : ℕ) (hr : r < rows) (hj : j < cols) :
    entry (nodes.foldl (fun c k => applyUpdates c (g k)) (zeros rows cols)) r j
      = (nodes.map (fun k => sumUpdates (g k) r j)).sum := by
  rw [foldl_applyUpdates, applyUpdates_eq_addAll,
    entry_addAll _ _ _ _ (by rw [zeros]; simpa using hr)
      (by rw [zeros_getD_length rows cols r hr]; exact hj),
    entry_zeros rows cols r j hr hj, sumUpdates_flatMap]
  ring

lemma foldl_applyUpdates_length (g : Node → List Upd) (nodes : List Node)
    (rows cols : ℕ) :
    (nodes.foldl (fun c k => applyUpdates c (g k)) (zeros rows cols)).length
      = rows := by
  rw [foldl_applyUpdates, applyUpdates_eq_addAll, addAll_length]
  simp [zeros]

lemma sum_map_add_eq {α : Type} (l : List α) (f g : α → ℂ) :
    (l.map (fun x => f x + g x)).sum = (l.map f).sum + (l.map g).sum := by
  induction l with
  | nil => simp
  | cons x l ih => simp [ih]; ring

lemma apply_gradient_component_fst (wp : Wavepacket) :
    (apply_gradient_component wp).1 = wp.shape.extend := rfl

lemma apply_gradient_component_snd (wp : Wavepacket) :
    (apply_gradient_component wp).2
      = wp.shape.nodes.foldl
          (fun c k => applyUpdates c
            (nodeUpdates wp.shape.extend wp.shape wp.coeffs wp.p wp.P
              (conjMat wp.P) wp.eps k))
          (zeros wp.shape.extend.get_basis_size wp.D) := rfl

lemma sumUpdates_backwardUpdates (Ke K : BasisShape) (coeffs : List ℂ)
    (Pbar : List (List ℂ)) (eps : ℝ) (k : Node) (r j : ℕ) :
    sumUpdates (backwardUpdates Ke K coeffs Pbar eps k) r j
      = ((Ke.backwardNeighbours k).map (fun dn =>
          if Ke.position dn.2 = r then
            (Real.sqrt (eps ^ 2 / 2) : ℂ) * (Real.sqrt (k.getD dn.1 0) : ℂ) *
              coeffs.getD (K.position k) 0 * matEntry Pbar j dn.1
          else 0)).sum := by
  unfold sumUpdates backwardUpdates
  rw [List.map_map]
  rfl

lemma sumUpdates_forwardUpdates (Ke K : BasisShape) (coeffs : List ℂ)
    (P : List (List ℂ)) (eps : ℝ) (k : Node) (r j : ℕ) :
    sumUpdates (forwardUpdates Ke K coeffs P eps k) r j
      = ((Ke.forwardNeighbours k).map (fun dn =>
          if Ke.position dn.2 = r then
            (Real.sqrt (eps ^ 2 / 2) : ℂ) * (Real.sqrt ((k.getD dn.1 0 : ℝ) + 1) : ℂ) *
              coeffs.getD (K.position k) 0 * matEntry P j dn.1
          else 0)).sum := by
  unfold sumUpdates forwardUpdates
  rw [List.map_map]
  rfl

/-- The full stencil splits as the no-backward variant plus the backward
contributions located against the extended shape. -/
lemma entry_apply_split_backward (wp : Wavepacket) (r j : ℕ)
    (hr : r < wp.shape.extend.get_basis_size) (hj : j < wp.D) :
    entry (apply_gradient_component wp).2 r j
      = entry (gradientNoBackward wp) r j
        + backwardContribVia wp.shape.extend wp r j := by
  rw [apply_gradient_component_snd, gradientNoBackward,
    entry_foldl_zeros _ _ _ _ _ _ hr hj, entry_foldl_zeros _ _ _ _ _ _ hr hj]
  unfold backwardContribVia
  rw [← sum_map_add_eq]
  congr 1
  congr 1
  funext k
  rw [nodeUpdates, sumUpdates_cons, sumUpdates_append, sumUpdates_cons,
    sumUpdates_backwardUpdates]
  ring

/-- The full stencil splits as the no-forward variant plus the forward
contributions located against the extended shape. -/
lemma entry_apply_split_forward (wp : Wavepacket) (r j : ℕ)
    (hr : r < wp.shape.extend.get_basis_size) (hj : j < wp.D) :
    entry (apply_gradient_component wp).2 r j
      = entry (gradientNoForward wp) r j
        + forwardContribVia wp.shape.extend wp r j := by
  rw [apply_gradient_component_snd, gradientNoForward,
    entry_foldl_zeros _ _ _ _ _ _ hr hj, entry_foldl_zeros _ _ _ _ _ _ hr hj]
  unfold forwardContribVia
  rw [← sum_map_add_eq]
  congr 1
  congr 1
  funext k
  rw [nodeUpdates, sumUpdates_cons, sumUpdates_append, sumUpdates_cons,
    sumUpdates_forwardUpdates]
  ring

lemma shapeCex_extend : shapeCex.extend = shapeCexE := by decide

lemma bwN_shapeCex_zero : shapeCex.backwardNeighbours [0] = [] := by decide

lemma bwN_shapeCex_two : shapeCex.backwardNeighbours [2] = [] := by decide

lemma bwN_shapeCexE_zero : shapeCexE.backwardNeighbours [0] = [] := by decide

lemma bwN_shapeCexE_two : shapeCexE.backwardNeighbours [2] = [(0, [1])] := by decide

lemma backwardContribVia_original_cex :
    backwardContribVia wpCex.shape wpCex 2 0 = 0 := by
  have h : wpCex.shape = shapeCex := rfl
  rw [backwardContribVia, h]
  have hn : shapeCex.nodes = [[0], [2]] := rfl
  rw [hn, List.map_cons, List.map_cons, List.map_nil,
    bwN_shapeCex_zero, bwN_shapeCex_two]
  simp

set_option maxRecDepth 4000 in
lemma backwardContribVia_extended_cex :
    backwardContribVia wpCex.shape.extend wpCex 2 0 = 1 := by
  have h : wpCex.shape = shapeCex := rfl
  rw [backwardContribVia, h, shapeCex_extend]
  have hn : shapeCex.nodes = [[0], [2]] := rfl
  rw [hn, List.map_cons, List.map_cons, List.map_nil,
    bwN_shapeCexE_zero, bwN_shapeCexE_two]
  have hpos : shapeCexE.position [1] = 2 := by decide
  have hposK : shapeCex.position [2] = 1 := by decide
  simp only [List.map_cons, List.map_nil, List.sum_cons, List.sum_nil]
  norm_num [hpos, hposK]
  have he : wpCex.eps = 1 := rfl
  have hc : wpCex.coeffs[1]?.getD 0 = 1 := rfl
  have hm : matEntry (conjMat wpCex.P) 0 0 = 1 := by
    simp [matEntry, conjMat, wpCex]
  rw [he, hc, hm]
  norm_num

lemma sumUpdates_nodeUpdates (Ke K : BasisShape) (coeffs p : List ℂ)
    (P Pbar : List (List ℂ)) (eps : ℝ) (k : Node) (r j : ℕ) :
    sumUpdates (nodeUpdates Ke K coeffs p P Pbar eps k) r j
      = (if Ke.position k = r then coeffs.getD (K.position k) 0 * p.getD j 0 else 0)
        + ((Ke.backwardNeighbours k).map (fun dn =>
            if Ke.position dn.2 = r then
              (Real.sqrt (eps ^ 2 / 2) : ℂ) * (Real.sqrt (k.getD dn.1 0) : ℂ) *
                coeffs.getD (K.position k) 0 * matEntry Pbar j dn.1
            else 0)).sum
        + ((Ke.forwardNeighbours k).map (fun dn =>
            if Ke.position dn.2 = r then
              (Real.sqrt (eps ^ 2 / 2) : ℂ) * (Real.sqrt ((k.getD dn.1 0 : ℝ) + 1) : ℂ) *
                coeffs.getD (K.position k) 0 * matEntry P j dn.1
            else 0)).sum := by
  rw [nodeUpdates, sumUpdates_cons, sumUpdates_append,
    sumUpdates_backwardUpdates, sumUpdates_forwardUpdates, centralUpdate]
  ring

lemma shapeC3_extend : shapeC3.extend = shapeC3E := by decide

lemma bwN_C3E_0 : shapeC3E.backwardNeighbours [0] = [] := by decide
lemma bwN_C3E_1 : shapeC3E.backwardNeighbours [1] = [(0, [0])] := by decide
lemma bwN_C3E_2 : shapeC3E.backwardNeighbours [2] = [(0, [1])] := by decide
lemma fwN_C3E_0 : shapeC3E.forwardNeighbours [0] = [(0, [1])] := by decide
lemma fwN_C3E_1 : shapeC3E.forwardNeighbours [1] = [(0, [2])] := by decide
lemma fwN_C3E_2 : shapeC3E.forwardNeighbours [2] = [(0, [3])] := by decide

set_option maxRecDepth 8000 in
lemma wpC3_entry_0 : entry (apply_gradient_component wpC3).2 0 0 = 1 := by
  rw [apply_gradient_component_snd]
  have h : wpC3.shape = shapeC3 := rfl
  rw [h, shapeC3_extend]
  have hn : shapeC3.nodes = [[0], [1], [2]] := rfl
  rw [hn]
  rw [entry_foldl_zeros _ _ _ _ _ _ (by decide) (by decide)]
  rw [List.map_cons, List.map_cons, List.map_cons, List.map_nil]
  rw [sumUpdates_nodeUpdates, sumUpdates_nodeUpdates, sumUpdates_nodeUpdates]
  rw [bwN_C3E_0, bwN_C3E_1, bwN_C3E_2, fwN_C3E_0, fwN_C3E_1, fwN_C3E_2]
  have p0 : shapeC3E.position [0] = 0 := by decide
  have p1 : shapeC3E.position [1] = 1 := by decide
  have p2 : shapeC3E.position [2] = 2 := by decide
  have p3 : shapeC3E.position [3] = 3 := by decide
  have q0 : shapeC3.position [0] = 0 := by decide
  have q1 : shapeC3.position [1] = 1 := by decide
  have q2 : shapeC3.position [2] = 2 := by decide
  norm_num [p0, p1, p2, p3, q0, q1, q2]
  have c0 : wpC3.coeffs[0]?.getD 0 = 1 := rfl
  have c1 : wpC3.coeffs[1]?.getD 0 = 0 := rfl
  have hp : wpC3.p[0]?.getD 0 = 1 := rfl
  have hm : matEntry (conjMat wpC3.P) 0 0 = 1 := by simp [matEntry, conjMat, wpC3]
  rw [c0, c1, hp, hm]
  norm_num

set_option maxRecDepth 8000 in
lemma wpC3_entry_1 : entry (apply_gradient_component wpC3).2 1 0 = Real.sqrt (1 / 2) := by
  rw [apply_gradient_component_snd]
  have h : wpC3.shape = shapeC3 := rfl
  rw [h, shapeC3_extend]
  have hn : shapeC3.nodes = [[0], [1], [2]] := rfl
  rw [hn]
  rw [entry_foldl_zeros _ _ _ _ _ _ (by decide) (by decide)]
  rw [List.map_cons, List.map_cons, List.map_cons, List.map_nil]
  rw [sumUpdates_nodeUpdates, sumUpdates_nodeUpdates, sumUpdates_nodeUpdates]
  rw [bwN_C3E_0, bwN_C3E_1, bwN_C3E_2, fwN_C3E_0, fwN_C3E_1, fwN_C3E_2]
  have p0 : shapeC3E.position [0] = 0 := by decide
  have p1 : shapeC3E.position [1] = 1 := by decide
  have p2 : shapeC3E.position [2] = 2 := by decide
  have p3 : shapeC3E.position [3] = 3 := by decide
  have q0 : shapeC3.position [0] = 0 := by decide
  have q1 : shapeC3.position [1] = 1 := by decide
  have q2 : shapeC3.position [2] = 2 := by decide
  norm_num [p0, p1, p2, p3, q0, q1, q2]
  have c0 : wpC3.coeffs[0]?.getD 0 = 1 := rfl
  have c1 : wpC3.coeffs[1]?.getD 0 = 0 := rfl
  have c2 : wpC3.coeffs[2]?.getD 0 = 0 := rfl
  have hp : wpC3.p[0]?.getD 0 = 1 := rfl
  have hm : matEntry wpC3.P 0 0 = 1 := by simp [matEntry, wpC3]
  have he : wpC3.eps = 1 := rfl
  rw [c0, c1, c2, hp, hm, he]
  norm_num [Real.sqrt_one]

set_option maxRecDepth 8000 in
lemma wpC3_entry_2 : entry (apply_gradient_component wpC3).2 2 0 = 0 := by
  rw [apply_gradient_component_snd]
  have h : wpC3.shape = shapeC3 := rfl
  rw [h, shapeC3_extend]
  have hn : shapeC3.nodes = [[0], [1], [2]] := rfl
  rw [hn]
  rw [entry_foldl_zeros _ _ _ _ _ _ (by decide) (by decide)]
  rw [List.map_cons, List.map_cons, List.map_cons, List.map_nil]
  rw [sumUpdates_nodeUpdates, sumUpdates_nodeUpdates, sumUpdates_nodeUpdates]
  rw [bwN_C3E_0, bwN_C3E_1, bwN_C3E_2, fwN_C3E_0, fwN_C3E_1, fwN_C3E_2]
  have p0 : shapeC3E.position [0] = 0 := by decide
  have p1 : shapeC3E.position [1] = 1 := by decide
  have p2 : shapeC3E.position [2] = 2 := by decide
  have p3 : shapeC3E.position [3] = 3 := by decide
  have q0 : shapeC3.position [0] = 0 := by decide
  have q1 : shapeC3.position [1] = 1 := by decide
  have q2 : shapeC3.position [2] = 2 := by decide
  norm_num [p0, p1, p2, p3, q0, q1, q2]
  have c1 : wpC3.coeffs[1]?.getD 0 = 0 := rfl
  have c2 : wpC3.coeffs[2]?.getD 0 = 0 := rfl
  rw [c1, c2]
  ring

set_option maxRecDepth 8000 in
lemma wpC3_entry_3 : entry (apply_gradient_component wpC3).2 3 0 = 0 := by
  rw [apply_gradient_component_snd]
  have h : wpC3.shape = shapeC3 := rfl
  rw [h, shapeC3_extend]
  have hn : shapeC3.nodes = [[0], [1], [2]] := rfl
  rw [hn]
  rw [entry_foldl_zeros _ _ _ _ _ _ (by decide) (by decide)]
  rw [List.map_cons, List.map_cons, List.map_cons, List.map_nil]
  rw [sumUpdates_nodeUpdates, sumUpdates_nodeUpdates, sumUpdates_nodeUpdates]
  rw [bwN_C3E_0, bwN_C3E_1, bwN_C3E_2, fwN_C3E_0, fwN_C3E_1, fwN_C3E_2]
  have p0 : shapeC3E.position [0] = 0 := by decide
  have p1 : shapeC3E.position [1] = 1 := by decide
  have p2 : shapeC3E.position [2] = 2 := by decide
  have p3 : shapeC3E.position [3] = 3 := by decide
  have q0 : shapeC3.position [0] = 0 := by decide
  have q1 : shapeC3.position [1] = 1 := by decide
  have q2 : shapeC3.position [2] = 2 := by decide
  norm_num [p0, p1, p2, p3, q0, q1, q2]
  have c2 : wpC3.coeffs[2]?.getD 0 = 0 := rfl
  rw [c2]
  tauto

/-- **C1** (as stated, counterexample): at the 1-D shape `{0, 2}` with
`eps = 1`, `P = [[1]]`, `p = [0]` and coefficient one on node `2`, the
result is *not* the no-backward variant plus the backward contributions
located against the *original* shape: the code locates backward
neighbours against the extended shape, which contains node `1` even
though the original shape does not. -/
theorem gradient_backward_original_shape_cex :
    ¬ (entry (apply_gradient_component wpCex).2 2 0
        = entry (gradientNoBackward wpCex) 2 0
          + backwardContribVia wpCex.shape wpCex 2 0) := by
  rw [entry_apply_split_backward wpCex 2 0 (by decide) (by decide),
    backwardContribVia_original_cex, backwardContribVia_extended_cex]
  intro h
  have h0 : (1 : ℂ) = 0 := add_left_cancel h
  exact one_ne_zero h0

/-- **C1** (amended): in `apply_gradient_component`, for every node `k`
of the original shape a backward contribution is added exactly for each
pair `(d, nb)` returned by the backward neighbour lookup of `k` against
the **extended** shape, each adding
`sqrt(eps²/2) · sqrt(k[d]) · c_k · Pbar[:, d]` to the row of `nb` under
the extended shape's position map: entry-wise, the result is the
no-backward variant plus exactly those backward contributions. -/
theorem gradient_backward_terms_extended (wp : Wavepacket) (r j : ℕ)
    (hr : r < wp.shape.extend.get_basis_size) (hj : j < wp.D) :
    entry (apply_gradient_component wp).2 r j
      = entry (gradientNoBackward wp) r j
        + backwardContribVia wp.shape.extend wp r j :=
  entry_apply_split_backward wp r j hr hj

theorem gradient_backward_terms_extended_witness :
    2 < wpCex.shape.extend.get_basis_size ∧ 0 < wpCex.D ∧
      entry (apply_gradient_component wpCex).2 2 0
        = entry (gradientNoBackward wpCex) 2 0
          + backwardContribVia wpCex.shape.extend wpCex 2 0 :=
  ⟨by decide, by decide,
    gradient_backward_terms_extended wpCex 2 0 (by decide) (by decide)⟩

/-- **C2**: in `apply_gradient_component`, for every node `k` of the
original shape a forward contribution is added exactly for each pair
`(d, nb)` returned by the forward neighbour lookup of `k` against the
**extended** shape (not the original shape), each adding
`sqrt(eps²/2) · sqrt(k[d] + 1) · c_k · P[:, d]` to the row of `nb` under
the extended shape's position map: entry-wise, the result is the
no-forward variant plus exactly those forward contributions. -/
theorem gradient_forward_terms_extended (wp : Wavepacket) (r j : ℕ)
    (hr : r < wp.shape.extend.get_basis_size) (hj : j < wp.D) :
    entry (apply_gradient_component wp).2 r j
      = entry (gradientNoForward wp) r j
        + forwardContribVia wp.shape.extend wp r j :=
  entry_apply_split_forward wp r j hr hj

theorem gradient_forward_terms_extended_witness :
    1 < wpCex.shape.extend.get_basis_size ∧ 0 < wpCex.D ∧
      entry (apply_gradient_component wpCex).2 1 0
        = entry (gradientNoForward wpCex) 1 0
          + forwardContribVia wpCex.shape.extend wpCex 1 0 :=
  ⟨by decide, by decide,
    gradient_forward_terms_extended wpCex 1 0 (by decide) (by decide)⟩

/-- **C3**: for the 1-D shape with nodes `{0,1,2}`, `p = [1]`,
`P = Pbar = [[1]]`, `eps = 1` and coefficients `c = [1, 0, 0]`, the
stencil returns the extended shape with nodes `{0,1,2,3}` (size 4) and a
coefficient array whose only nonzero rows are at the extended positions
of node `0` (value `1`, the central term) and node `1` (value
`sqrt(1/2)`, the forward term); the rows of nodes `2` and `3` are
zero. -/
theorem gradient_concrete_scenario_1d :
    (apply_gradient_component wpC3).1.nodes = [[0], [1], [2], [3]]
    ∧ (apply_gradient_component wpC3).1.get_basis_size = 4
    ∧ entry (apply_gradient_component wpC3).2
        ((apply_gradient_component wpC3).1.position [0]) 0 = 1
    ∧ entry (apply_gradient_component wpC3).2
        ((apply_gradient_component wpC3).1.position [1]) 0 = Real.sqrt (1 / 2)
    ∧ entry (apply_gradient_component wpC3).2
        ((apply_gradient_component wpC3).1.position [2]) 0 = 0
    ∧ entry (apply_gradient_component wpC3).2
        ((apply_gradient_component wpC3).1.position [3]) 0 = 0 := by
  have hfst : (apply_gradient_component wpC3).1 = shapeC3E := by
    rw [apply_gradient_component_fst]
    have h : wpC3.shape = shapeC3 := rfl
    rw [h, shapeC3_extend]
  refine ⟨by rw [hfst]; rfl, by rw [hfst]; rfl, ?_, ?_, ?_, ?_⟩
  · rw [hfst]
    have hp : shapeC3E.position [0] = 0 := by decide
    rw [hp]
    exact wpC3_entry_0
  · rw [hfst]
    have hp : shapeC3E.position [1] = 1 := by decide
    rw [hp]
    exact wpC3_entry_1
  · rw [hfst]
    have hp : shapeC3E.position [2] = 2 := by decide
    rw [hp]
    exact wpC3_entry_2
  · rw [hfst]
    have hp : shapeC3E.position [3] = 3 := by decide
    rw [hp]
    exact wpC3_entry_3

/-- **C4**: for valid input (coefficient rows matching the shape size,
`D × D` scale matrix, `eps > 0`) the result has exactly
`extend(shape).size()` rows; its entries are the zero-initialised array
plus the total scatter-add contribution of every node, so an entry all
of whose contributions vanish is exactly zero. -/
theorem gradient_row_count_and_scatter (wp : Wavepacket)
    (hc : wp.coeffs.length = wp.shape.get_basis_size)
    (hP : wp.P.length = wp.D)
    (hProws : ∀ row ∈ wp.P, row.length = wp.D)
    (heps : 0 < wp.eps) :
    (apply_gradient_component wp).2.length = wp.shape.extend.get_basis_size
    ∧ (∀ r j, r < wp.shape.extend.get_basis_size → j < wp.D →
        entry (apply_gradient_component wp).2 r j
          = (wp.shape.nodes.map (fun k =>
              sumUpdates (nodeUpdates wp.shape.extend wp.shape wp.coeffs wp.p
                wp.P (conjMat wp.P) wp.eps k) r j)).sum)
    ∧ (∀ r j, r < wp.shape.extend.get_basis_size → j < wp.D →
        (∀ k ∈ wp.shape.nodes,
          sumUpdates (nodeUpdates wp.shape.extend wp.shape wp.coeffs wp.p
            wp.P (conjMat wp.P) wp.eps k) r j = 0) →
        entry (apply_gradient_component wp).2 r j = 0) := by
  refine ⟨?_, ?_, ?_⟩
  · rw [apply_gradient_component_snd]
    exact foldl_applyUpdates_length _ _ _ _
  · intro r j hr hj
    rw [apply_gradient_component_snd, entry_foldl_zeros _ _ _ _ _ _ hr hj]
  · intro r j hr hj hz
    rw [apply_gradient_component_snd, entry_foldl_zeros _ _ _ _ _ _ hr hj]
    refine List.sum_eq_zero ?_
    intro x hx
    obtain ⟨k, hk, hkx⟩ := List.mem_map.mp hx
    rw [← hkx]
    exact hz k hk

theorem gradient_row_count_and_scatter_witness :
    0 < wpC3.eps ∧
      (apply_gradient_component wpC3).2.length
        = wpC3.shape.extend.get_basis_size :=
  ⟨by rw [show wpC3.eps = 1 from rfl]; norm_num,
    (gradient_row_count_and_scatter wpC3 rfl rfl
      (by intro row hrow
          rw [show wpC3.P = [[1]] from rfl] at hrow
          simp only [List.mem_singleton] at hrow
          rw [hrow]
          rfl)
      (by rw [show wpC3.eps = 1 from rfl]; norm_num)).1⟩

/-- **C5**: the node set of `extend(S)` is exactly the union of `S`'s
nodes with all unit increments of nodes of `S`; in particular no node is
removed and every unit increment of every node of `S` lies in
`extend(S)`. -/
theorem extend_nodes_characterization (S : BasisShape) :
    (∀ n : Node, n ∈ S.extend.nodes ↔
      (n ∈ S.nodes ∨ ∃ k ∈ S.nodes, ∃ d, d < S.D ∧ n = incr k d))
    ∧ (∀ k ∈ S.nodes, k ∈ S.extend.nodes)
    ∧ (∀ k ∈ S.nodes, ∀ d, d < S.D → incr k d ∈ S.extend.nodes) := by
  have hmem : ∀ n : Node, n ∈ S.extend.nodes ↔
      (n ∈ S.nodes ∨
        ((∃ k ∈ S.nodes, ∃ d, d < S.D ∧ incr k d = n) ∧ n ∉ S.nodes)) := by
    intro n
    simp [BasisShape.extend, List.mem_append, List.mem_dedup, List.mem_filter,
      List.mem_flatMap, List.mem_range, decide_eq_true_eq]
  refine ⟨?_, ?_, ?_⟩
  · intro n
    rw [hmem n]
    constructor
    · rintro (h | ⟨⟨k, hk, d, hd, he⟩, -⟩)
      · exact Or.inl h
      · exact Or.inr ⟨k, hk, d, hd, he.symm⟩
    · rintro (h | ⟨k, hk, d, hd, he⟩)
      · exact Or.inl h
      · by_cases hn : n ∈ S.nodes
        · exact Or.inl hn
        · exact Or.inr ⟨⟨k, hk, d, hd, he.symm⟩, hn⟩
  · intro k hk
    exact (hmem k).mpr (Or.inl hk)
  · intro k hk d hd
    by_cases hn : incr k d ∈ S.nodes
    · exact (hmem _).mpr (Or.inl hn)
    · exact (hmem _).mpr (Or.inr ⟨⟨k, hk, d, hd, rfl⟩, hn⟩)

theorem extend_nodes_characterization_witness :
    ([0] : Node) ∈ shapeC3.nodes ∧ (0 < shapeC3.D ∧
      incr [0] 0 ∈ shapeC3.extend.nodes) :=
  ⟨by decide, by decide,
    (extend_nodes_characterization shapeC3).2.2 [0] (by decide) 0 (by decide)⟩

/-- **C6**: `apply_gradient_component` never mutates caller-visible
state: threading the wavepacket through every accessor of the source
returns it unchanged — in particular its basis shape, coefficient array
and parameter set are unchanged — and the value computed agrees with the
plain (pure) rendering, whose result array is built from a freshly
allocated zero array. -/
theorem apply_gradient_component_frame (wp : Wavepacket) :
    (apply_gradient_component_st wp).2 = wp
    ∧ (apply_gradient_component_st wp).2.shape = wp.shape
    ∧ (apply_gradient_component_st wp).2.coeffs = wp.coeffs
    ∧ (apply_gradient_component_st wp).2.eps = wp.eps
    ∧ (apply_gradient_component_st wp).1 = apply_gradient_component wp :=
  ⟨rfl, rfl, rfl, rfl, rfl⟩

lemma create_basis_shape_description (s : ShapeInstance) :
    create_basis_shape s.get_description = some s := by
  cases s with
  | hypercubic limits => rfl
  | hyperbolic D K => rfl

/-- **C7**: rebuilding a shape from `S.description()` (as the
persistence layer does via the block factory) yields a shape with the
same node set and the same structural hash; more generally, any two
shapes built from equal descriptions have equal node sets and equal
hashes. -/
theorem shape_description_roundtrip :
    (∀ s : ShapeInstance, ∃ s',
        create_basis_shape s.get_description = some s'
        ∧ s'.toBasisShape.nodes = s.toBasisShape.nodes
        ∧ s'.structural_hash = s.structural_hash)
    ∧ (∀ s₁ s₂ : ShapeInstance, s₁.get_description = s₂.get_description →
        s₁.toBasisShape.nodes = s₂.toBasisShape.nodes
        ∧ s₁.structural_hash = s₂.structural_hash) := by
  constructor
  · intro s
    exact ⟨s, create_basis_shape_description s, rfl, rfl⟩
  · intro s₁ s₂ h
    have h2 : some s₁ = some s₂ := by
      rw [← create_basis_shape_description s₁, ← create_basis_shape_description s₂, h]
    cases Option.some.inj h2
    exact ⟨rfl, rfl⟩

theorem shape_description_roundtrip_witness :
    (ShapeInstance.hypercubic [3]).get_description
        = (ShapeInstance.hypercubic [3]).get_description
    ∧ (ShapeInstance.hypercubic [3]).toBasisShape.nodes
        = (ShapeInstance.hypercubic [3]).toBasisShape.nodes
    ∧ (ShapeInstance.hypercubic [3]).structural_hash
        = (ShapeInstance.hypercubic [3]).structural_hash :=
  ⟨rfl, shape_description_roundtrip.2
    (ShapeInstance.hypercubic [3]) (ShapeInstance.hypercubic [3]) rfl⟩

lemma save_basisshapes_of_mem (st : BasisShapeStore) (bs : ShapeInstance)
    (h : ("basis_shape_" ++ toString bs.structural_hash) ∈ st.keys) :
    save_wavepacket_basisshapes st bs = st := by
  unfold save_wavepacket_basisshapes
  rw [if_pos h]

lemma save_basisshapes_mem_keys (st : BasisShapeStore) (bs : ShapeInstance) :
    ("basis_shape_" ++ toString bs.structural_hash)
      ∈ (save_wavepacket_basisshapes st bs).keys := by
  unfold save_wavepacket_basisshapes
  by_cases h : ("basis_shape_" ++ toString bs.structural_hash) ∈ st.keys
  · rw [if_pos h]
    exact h
  · rw [if_neg h]
    simp [BasisShapeStore.keys]

/-- **C8**: `save_wavepacket_basisshapes` is idempotent with respect to
the shape's hash: a second call with any shape of equal hash after a
first successful save leaves the stored group unchanged, and saving
never duplicates a dataset name (each hash key is stored at most
once). -/
theorem save_basisshapes_idempotent (st : BasisShapeStore)
    (bs bs' : ShapeInstance)
    (hh : bs'.structural_hash = bs.structural_hash) :
    save_wavepacket_basisshapes (save_wavepacket_basisshapes st bs) bs'
      = save_wavepacket_basisshapes st bs
    ∧ (st.keys.Nodup → (save_wavepacket_basisshapes st bs).keys.Nodup) := by
  constructor
  · apply save_basisshapes_of_mem
    rw [hh]
    exact save_basisshapes_mem_keys st bs
  · intro hnd
    unfold save_wavepacket_basisshapes
    by_cases h : ("basis_shape_" ++ toString bs.structural_hash) ∈ st.keys
    · rw [if_pos h]
      exact hnd
    · rw [if_neg h]
      show ((st.entries ++ _).map Prod.fst).Nodup
      rw [List.map_append, List.nodup_append]
      refine ⟨hnd, by simp, ?_⟩
      intro a ha hb
      simp only [List.map_cons, List.map_nil, List.mem_singleton] at hb
      rw [hb] at ha
      exact h ha

theorem save_basisshapes_idempotent_witness :
    (ShapeInstance.hypercubic [2]).structural_hash
        = (ShapeInstance.hypercubic [2]).structural_hash
    ∧ save_wavepacket_basisshapes
        (save_wavepacket_basisshapes ⟨[]⟩ (ShapeInstance.hypercubic [2]))
        (ShapeInstance.hypercubic [2])
      = save_wavepacket_basisshapes ⟨[]⟩ (ShapeInstance.hypercubic [2]) :=
  ⟨rfl, (save_basisshapes_idempotent ⟨[]⟩ (ShapeInstance.hypercubic [2])
    (ShapeInstance.hypercubic [2]) rfl).1⟩

lemma lookup_assocSet (l : List (String × ℕ)) (k : String) (a : ℕ) :
    (assocSet l k a).lookup k = some a := by
  induction l with
  | nil => simp [assocSet, List.lookup]
  | cons kv rest ih =>
      obtain ⟨k', a'⟩ := kv
      by_cases h : k' = k
      · subst h
        simp [assocSet, List.lookup]
      · rw [assocSet, if_neg h]
        have hb : (k == k') = false := beq_eq_false_iff_ne.mpr (Ne.symm h)
        simp [List.lookup, hb, ih]

lemma heapGet_append_left (h ext : Heap) (a : ℕ) (ha : a < h.length) :
    heapGet (h ++ ext) a = heapGet h a :=
  List.get?_append ha

lemma heapGet_concat_self (h : Heap) (v : PyVal) :
    heapGet (h ++ [v]) h.length = some v :=
  List.get?_concat_length h v

lemma heapGet_set_ne (h : Heap) (a b : ℕ) (v : PyVal) (hab : a ≠ b) :
    heapGet (heapSet h a v) b = heapGet h b :=
  List.get?_set_ne v h hab

lemma heapGet_exists_of_lt (h : Heap) (a : ℕ) (ha : a < h.length) :
    ∃ v, heapGet h a = some v := by
  cases hg : heapGet h a with
  | some v => exact ⟨v, rfl⟩
  | none =>
      unfold heapGet at hg
      rw [List.get?_eq_none] at hg
      exact absurd hg (Nat.not_le.mpr ha)

/-- **C9**: `provider[key]` raises `KeyError` exactly when the key is
absent from both the local parameters and the global defaults; when it
is absent locally but present in the defaults (with a valid reference),
the call succeeds, returns a reference to a *copy* of the default value
(same value, different object) and stores that copy locally under the
key. -/
theorem getItem_layered_defaults (pp : ParameterProvider) (h : Heap)
    (defaults : List (String × ℕ)) (key : String) :
    (pp.getItem h defaults key = .keyError
      ↔ (pp.params.lookup key = none ∧ defaults.lookup key = none))
    ∧ (pp.params.lookup key = none →
        ∀ a, defaults.lookup key = some a → a < h.length →
        ∃ h₂ pp₂ a₂, pp.getItem h defaults key = .ok h₂ pp₂ a₂
          ∧ heapGet h₂ a₂ = heapGet h a
          ∧ a₂ ≠ a
          ∧ pp₂.params.lookup key = some a₂) := by
  constructor
  · cases hl : pp.params.lookup key with
    | some a => simp [ParameterProvider.getItem, hl]
    | none =>
      cases hd : defaults.lookup key with
      | none => simp [ParameterProvider.getItem, hl, hd]
      | some a =>
        cases hg : heapGet h a with
        | none =>
            simp [ParameterProvider.getItem, hl, hd, deepcopy, hg]
        | some v =>
            simp [ParameterProvider.getItem, hl, hd, deepcopy, hg, alloc,
              ParameterProvider.setItem, heapGet_concat_self, lookup_assocSet]
  · intro hl a hd ha
    obtain ⟨v, hv⟩ := heapGet_exists_of_lt h a ha
    refine ⟨h ++ [v] ++ [v], ⟨assocSet pp.params key (h ++ [v]).length⟩,
      (h ++ [v]).length, ?_, ?_, ?_, ?_⟩
    · simp [ParameterProvider.getItem, hl, hd, deepcopy, hv, alloc,
        ParameterProvider.setItem, heapGet_concat_self, lookup_assocSet]
    · rw [heapGet_concat_self (h ++ [v]) v, hv]
    · rw [List.length_append, List.length_singleton]
      omega
    · exact lookup_assocSet pp.params key (h ++ [v]).length

theorem getItem_layered_defaults_witness :
    (⟨[]⟩ : ParameterProvider).params.lookup "a" = none
    ∧ ([("a", 0)] : List (String × ℕ)).lookup "a" = some 0
    ∧ 0 < ([PyVal.int 5] : Heap).length
    ∧ ∃ h₂ pp₂ a₂,
        (⟨[]⟩ : ParameterProvider).getItem [PyVal.int 5] [("a", 0)] "a"
          = .ok h₂ pp₂ a₂
        ∧ heapGet h₂ a₂ = heapGet [PyVal.int 5] 0
        ∧ a₂ ≠ 0
        ∧ pp₂.params.lookup "a" = some a₂ :=
  ⟨rfl, rfl, by decide,
    (getItem_layered_defaults ⟨[]⟩ [PyVal.int 5] [("a", 0)] "a").2
      rfl 0 rfl (by decide)⟩

lemma deepcopyParams_sound (l : List (String × ℕ)) :
    ∀ h h' l', deepcopyParams h l = some (h', l') →
      (∃ ext, h' = h ++ ext) ∧ ∀ kv ∈ l', h.length ≤ kv.2 := by
  induction l with
  | nil =>
      intro h h' l' he
      simp only [deepcopyParams, Option.some.injEq, Prod.mk.injEq] at he
      obtain ⟨rfl, rfl⟩ := he
      exact ⟨⟨[], by simp⟩, by simp⟩
  | cons kv rest ih =>
      intro h h' l' he
      obtain ⟨k, a⟩ := kv
      unfold deepcopyParams at he
      cases hg : heapGet h a with
      | none => rw [show deepcopy h a = none by simp [deepcopy, hg]] at he; simp at he
      | some v =>
          rw [show deepcopy h a = some (h ++ [v], h.length) by
            simp [deepcopy, hg, alloc]] at he
          dsimp only at he
          cases hr : deepcopyParams (h ++ [v]) rest with
          | none => rw [hr] at he; simp at he
          | some pair =>
              obtain ⟨h₂, l₂⟩ := pair
              rw [hr] at he
              simp only [Option.some.injEq, Prod.mk.injEq] at he
              obtain ⟨rfl, rfl⟩ := he
              obtain ⟨⟨ext, hext⟩, hge⟩ := ih (h ++ [v]) h₂ l₂ hr
              constructor
              · exact ⟨[v] ++ ext, by rw [hext, List.append_assoc]⟩
              · intro kv hkv
                rcases List.mem_cons.mp hkv with hkv | hkv
                · rw [hkv]
                · have := hge kv hkv
                  simp only [List.length_append, List.length_singleton] at this
                  omega

lemma deepcopyParams_total (l : List (String × ℕ)) :
    ∀ h, (∀ kv ∈ l, kv.2 < h.length) →
      ∃ h' l', deepcopyParams h l = some (h', l') := by
  induction l with
  | nil => intro h _; exact ⟨h, [], rfl⟩
  | cons kv rest ih =>
      intro h hv
      obtain ⟨k, a⟩ := kv
      have ha : a < h.length := hv (k, a) (List.mem_cons_self _ _)
      obtain ⟨v, hg⟩ := heapGet_exists_of_lt h a ha
      have hdc : deepcopy h a = some (h ++ [v], h.length) := by
        simp [deepcopy, hg, alloc]
      have hrest : ∀ kv ∈ rest, kv.2 < (h ++ [v]).length := by
        intro kv hk
        have := hv kv (List.mem_cons_of_mem _ hk)
        simp only [List.length_append, List.length_singleton]
        omega
      obtain ⟨h', l', hr⟩ := ih (h ++ [v]) hrest
      exact ⟨h', (k, h.length) :: l', by simp [deepcopyParams, hdc, hr]⟩

/-- **C10**: the provider isolates its state by deep copies.  After
`provider[key] = value`, mutating the caller's value object (at any
value `v`) does not change what `provider[key]` refers to, and the
stored value equals the value at assignment time.  The dict returned by
`get_parameters` references only freshly copied objects, so mutating any
of them never changes the provider's stored parameter values. -/
theorem provider_deepcopy_isolation (pp : ParameterProvider) (h : Heap)
    (key : String) (a : ℕ) (ha : a < h.length)
    (hvalid : ∀ kv ∈ pp.params, kv.2 < h.length) :
    (∀ h' pp', pp.setItem h key a = some (h', pp') →
      ∀ a', pp'.params.lookup key = some a' →
        (∀ v, heapGet (heapSet h' a v) a' = heapGet h' a')
        ∧ heapGet h' a' = heapGet h a)
    ∧ (∃ h' l, pp.get_parameters h = some (h', l)
        ∧ ∀ kv ∈ l, ∀ v, ∀ kv₀ ∈ pp.params,
            heapGet (heapSet h' kv.2 v) kv₀.2 = heapGet h' kv₀.2) := by
  constructor
  · intro h' pp' hset a' hlook
    obtain ⟨v₀, hg⟩ := heapGet_exists_of_lt h a ha
    rw [ParameterProvider.setItem,
      show deepcopy h a = some (h ++ [v₀], h.length) by
        simp [deepcopy, hg, alloc]] at hset
    simp only [Option.map_some', Option.some.injEq, Prod.mk.injEq] at hset
    obtain ⟨rfl, rfl⟩ := hset
    rw [lookup_assocSet] at hlook
    have ha' : a' = h.length := (Option.some.inj hlook).symm
    subst ha'
    constructor
    · intro v
      exact heapGet_set_ne _ _ _ _ (by omega)
    · rw [heapGet_concat_self, hg]
  · obtain ⟨h', l', hr⟩ := deepcopyParams_total pp.params h hvalid
    have hs := deepcopyParams_sound pp.params h h' l' hr
    refine ⟨h', l', hr, ?_⟩
    intro kv hkv v kv₀ hkv₀
    have h1 := hs.2 kv hkv
    have h2 := hvalid kv₀ hkv₀
    exact heapGet_set_ne _ _ _ _ (by omega)

theorem provider_deepcopy_isolation_witness :
    0 < ([PyVal.int 7] : Heap).length
    ∧ ∃ h' l,
        (⟨[("b", 0)]⟩ : ParameterProvider).get_parameters [PyVal.int 7]
          = some (h', l)
        ∧ ∀ kv ∈ l, ∀ v, ∀ kv₀ ∈ (⟨[("b", 0)]⟩ : ParameterProvider).params,
            heapGet (heapSet h' kv.2 v) kv₀.2 = heapGet h' kv₀.2 :=
  ⟨by decide,
    (provider_deepcopy_isolation ⟨[("b", 0)]⟩ [PyVal.int 7] "a" 0
      (by decide) (by decide)).2⟩

end WaveBlocks
